import Mathlib

/-!
Verification of the image-batch optimization service ("ImageOptix").

This file gives a shallow embedding of the job-orchestration core of the
repository: the fixed-window rate limiter (`src/lib/rate-limiter.ts`), the
submission / polling interface and the background orchestrator
(`src/app/actions.ts`: `createProcessImagesJob`, `processAndZip`,
`getJobStatus`), and the target-dimension computation of `optimizeImage`.

Modelling conventions:
- JavaScript strings are `List Char`; byte buffers are `List Nat`.
- `Map` objects keyed by strings are functions `List Char → Option _`.
- Time (`Date.now()`) is a `Nat` parameter threaded explicitly.
- The external `sharp` transcoder is an oracle `InputFile → Except (List Char) (List Nat)`;
  the JSZip archiver is modelled at the spec boundary as the sequence of
  named byte buffers handed to it (one combined buffer whose decompression
  yields exactly those entries).
-/

namespace ImageOptix

/-! ## Constants (`src/config/limits.ts`) -/

def BATCH_LIMIT : Nat := 50

def RATE_LIMIT_MAX_REQUESTS : Nat := 100

def RATE_LIMIT_WINDOW_MS : Nat := 60 * 1000

/-! ## Rate limiter (`src/lib/rate-limiter.ts`) -/

structure RateRecord where
  count : Nat
  startTime : Nat
deriving DecidableEq, Repr

/-- The `requests` map of `rate-limiter.ts`, keyed by caller identity (IP). -/
def LimiterState : Type := List Char → Option RateRecord

def emptyLimiter : LimiterState := fun _ => none

def setRecord (st : LimiterState) (ip : List Char) (r : RateRecord) : LimiterState :=
  fun k => if k = ip then some r else st k

/-- `checkRateLimit(ip)` from `src/lib/rate-limiter.ts`.  Returns the
`success` flag of the result object together with the updated map.  JS
`now - startTime > RATE_LIMIT_WINDOW_MS` never fires for a clock that has not
reached `startTime` (the difference is negative in JS, zero here), so
truncated `Nat` subtraction chooses the same branch. -/
def checkRateLimit (st : LimiterState) (now : Nat) (ip : List Char) :
    Bool × LimiterState :=
  match st ip with
  | none => (true, setRecord st ip ⟨1, now⟩)
  | some r =>
    if RATE_LIMIT_WINDOW_MS < now - r.startTime then
      (true, setRecord st ip ⟨1, now⟩)
    else if r.count < RATE_LIMIT_MAX_REQUESTS then
      (true, setRecord st ip ⟨r.count + 1, r.startTime⟩)
    else
      (false, st)

/-- Iterate `checkRateLimit` for `k` requests from `ip`, all at time `now`;
returns the final map and how many of the requests were allowed. -/
def runRequests (st : LimiterState) (now : Nat) (ip : List Char) :
    Nat → LimiterState × Nat
  | 0 => (st, 0)
  | k + 1 =>
    let p := runRequests st now ip k
    let c := checkRateLimit p.1 now ip
    (c.2, p.2 + (if c.1 then 1 else 0))

theorem setRecord_same (st : LimiterState) (ip : List Char) (r : RateRecord) :
    setRecord st ip r ip = some r := by
  simp [setRecord]

theorem runRequests_empty_spec (now : Nat) (ip : List Char) :
    ∀ k : Nat,
      (runRequests emptyLimiter now ip k).2 = min k RATE_LIMIT_MAX_REQUESTS ∧
      (0 < k →
        (runRequests emptyLimiter now ip k).1 ip =
          some ⟨min k RATE_LIMIT_MAX_REQUESTS, now⟩) := by
  intro k
  induction k with
  | zero => simp [runRequests]
  | succ k ih =>
    rcases Nat.eq_zero_or_pos k with hk0 | hkpos
    · subst hk0
      constructor
      · simp [runRequests, checkRateLimit, emptyLimiter, RATE_LIMIT_MAX_REQUESTS]
      · intro _
        simp [runRequests, checkRateLimit, emptyLimiter, setRecord_same,
          RATE_LIMIT_MAX_REQUESTS]
    · obtain ⟨ihcnt, ihst⟩ := ih
      have hst := ihst hkpos
      by_cases hlt : k < RATE_LIMIT_MAX_REQUESTS
      · have hmin : min k RATE_LIMIT_MAX_REQUESTS = k := Nat.min_eq_left (Nat.le_of_lt hlt)
        have hmin' : min (k + 1) RATE_LIMIT_MAX_REQUESTS = k + 1 :=
          Nat.min_eq_left (Nat.succ_le_of_lt hlt)
        constructor
        · simp only [runRequests, checkRateLimit, hst, hmin]
          simp [Nat.sub_self, RATE_LIMIT_WINDOW_MS, hlt, ihcnt, hmin, hmin']
        · intro _
          simp only [runRequests, checkRateLimit, hst, hmin]
          simp [Nat.sub_self, RATE_LIMIT_WINDOW_MS, hlt, setRecord_same, hmin']
      · have hge : RATE_LIMIT_MAX_REQUESTS ≤ k := Nat.le_of_not_lt hlt
        have hmin : min k RATE_LIMIT_MAX_REQUESTS = RATE_LIMIT_MAX_REQUESTS :=
          Nat.min_eq_right hge
        have hmin' : min (k + 1) RATE_LIMIT_MAX_REQUESTS = RATE_LIMIT_MAX_REQUESTS :=
          Nat.min_eq_right (Nat.le_succ_of_le hge)
        have hnotlt : ¬ RATE_LIMIT_MAX_REQUESTS < RATE_LIMIT_MAX_REQUESTS := Nat.lt_irrefl _
        constructor
        · simp only [runRequests, checkRateLimit, hst, hmin]
          simp [Nat.sub_self, RATE_LIMIT_WINDOW_MS, hnotlt, ihcnt, hmin, hmin']
        · intro _
          simp only [runRequests, checkRateLimit, hst, hmin]
          simp [Nat.sub_self, RATE_LIMIT_WINDOW_MS, hnotlt, hst, hmin', hge]

/-- C3: `checkRateLimit` fixed-window behaviour.  (a) first request from an
identity starts a window with count 1 and allows; (b) a request after the
window has elapsed resets to a fresh window with count 1 and allows,
regardless of the previous count; (c) within the window it allows and
increments while the count is below the maximum; (d) it denies, leaving the
map unchanged, once the count has reached the maximum; (e) a burst of `k`
same-window requests from a fresh identity admits exactly
`min k RATE_LIMIT_MAX_REQUESTS` of them (so exactly the excess is denied);
(f) after the window rolls over the identity regains admission. -/
theorem checkRateLimit_spec (st : LimiterState) (now : Nat) (ip : List Char) :
    (st ip = none →
      checkRateLimit st now ip = (true, setRecord st ip ⟨1, now⟩)) ∧
    (∀ r : RateRecord, st ip = some r →
      RATE_LIMIT_WINDOW_MS < now - r.startTime →
      checkRateLimit st now ip = (true, setRecord st ip ⟨1, now⟩)) ∧
    (∀ r : RateRecord, st ip = some r →
      now - r.startTime ≤ RATE_LIMIT_WINDOW_MS →
      r.count < RATE_LIMIT_MAX_REQUESTS →
      checkRateLimit st now ip = (true, setRecord st ip ⟨r.count + 1, r.startTime⟩)) ∧
    (∀ r : RateRecord, st ip = some r →
      now - r.startTime ≤ RATE_LIMIT_WINDOW_MS →
      RATE_LIMIT_MAX_REQUESTS ≤ r.count →
      checkRateLimit st now ip = (false, st)) ∧
    (∀ k : Nat,
      (runRequests emptyLimiter now ip k).2 = min k RATE_LIMIT_MAX_REQUESTS) ∧
    (∀ k : Nat, 0 < k →
      (checkRateLimit (runRequests emptyLimiter now ip k).1
        (now + RATE_LIMIT_WINDOW_MS + 1) ip).1 = true) := by
  refine ⟨?_, ?_, ?_, ?_, ?_, ?_⟩
  · intro h; simp [checkRateLimit, h]
  · intro r h hwin; simp [checkRateLimit, h, hwin]
  · intro r h hwin hcnt
    simp [checkRateLimit, h, Nat.not_lt_of_le hwin, hcnt]
  · intro r h hwin hcnt
    simp [checkRateLimit, h, Nat.not_lt_of_le hwin, Nat.not_lt_of_le hcnt]
  · intro k; exact (runRequests_empty_spec now ip k).1
  · intro k hk
    have hst := (runRequests_empty_spec now ip k).2 hk
    have hwin : RATE_LIMIT_WINDOW_MS <
        (now + RATE_LIMIT_WINDOW_MS + 1) - now := by omega
    simp [checkRateLimit, hst, hwin]

/-- Witness for C3 at concrete inputs: a fresh identity's first request is
allowed with a new count-1 window; a burst of 150 same-window requests from a
fresh identity admits exactly 100; after the window rolls over, the identity
is admitted again. -/
theorem checkRateLimit_spec_witness :
    checkRateLimit emptyLimiter 7 ['a'] =
      (true, setRecord emptyLimiter ['a'] ⟨1, 7⟩) ∧
    (runRequests emptyLimiter 7 ['a'] 150).2 = 100 ∧
    (checkRateLimit (runRequests emptyLimiter 7 ['a'] 150).1 60008 ['a']).1 = true := by
  refine ⟨(checkRateLimit_spec emptyLimiter 7 ['a']).1 (by decide), ?_, ?_⟩
  · exact (checkRateLimit_spec emptyLimiter 7 ['a']).2.2.2.2.1 150
  · exact (checkRateLimit_spec emptyLimiter 7 ['a']).2.2.2.2.2 150 (by decide)

/-! ## Job data model (`src/types`) -/

/-- `JobStatus` from `src/types`. -/
inductive JobStatus where
  | starting
  | processing
  | uploading
  | completed
  | failed
deriving DecidableEq, Repr

/-- A job's result: either a list of individually hosted URLs or one zip
archive.  The archive payload is modelled at the Archiver boundary as the
sequence of named byte buffers it combines (decompressing the combined
buffer yields exactly these entries). -/
inductive JobResult where
  | urls (links : List (List Char))
  | zip (entries : List (List Char × List Nat))
deriving DecidableEq, Repr

/-- `Job` from `src/types`: one snapshot stored in the `jobStore` map. -/
structure Job where
  status : JobStatus
  progress : Nat
  total : Nat
  info : Option (List Char) := none
  result : Option JobResult := none
  error : Option (List Char) := none
deriving DecidableEq, Repr

def isUrlsResult (j : Job) : Bool :=
  match j.result with
  | some (.urls _) => true
  | _ => false

def isZipResult (j : Job) : Bool :=
  match j.result with
  | some (.zip _) => true
  | _ => false

/-- One `(name, content)` file of a submitted batch. -/
structure InputFile where
  name : List Char
  content : List Nat
deriving DecidableEq, Repr

/-! ## Settings validation (`optimizationSettingsSchema` in `src/app/actions.ts`) -/

/-- Raw settings as parsed from the request's JSON `settings` string. -/
structure RawSettings where
  format : List Char
  quality : Int
  width : Option Int
  height : Option Int
deriving DecidableEq, Repr

def allowedFormats : List (List Char) :=
  ["jpeg".toList, "png".toList, "webp".toList, "avif".toList,
   "tiff".toList, "bmp".toList, "gif".toList]

/-- The Zod schema check: `format` in the enum, `quality` an integer in
`[1, 100]`, `width`/`height` each null or an integer `≥ 1`. -/
def validSettings (s : RawSettings) : Bool :=
  allowedFormats.contains s.format &&
  decide ((1 : Int) ≤ s.quality) && decide (s.quality ≤ 100) &&
  (match s.width with | none => true | some w => decide ((1 : Int) ≤ w)) &&
  (match s.height with | none => true | some h => decide ((1 : Int) ≤ h))

/-! ## Submission interface (`createProcessImagesJob`, synchronous part) -/

inductive SubmitResult where
  | jobCreated (jobId : Nat)
  | submitError (msg : List Char)
deriving DecidableEq, Repr

def SubmitResult.isError : SubmitResult → Bool
  | .jobCreated _ => false
  | .submitError _ => true

/-- Outcome of the synchronous part of `createProcessImagesJob`: the value
returned to the caller, the job record written to `jobStore` (if any), and
the rate-limiter map after the call. -/
structure SubmitOut where
  result : SubmitResult
  createdJob : Option Job
  limiter : LimiterState

def rateLimitMsg : List Char :=
  "Too many requests. Please try again in a minute.".toList

def missingMsg : List Char := "Missing files or settings.".toList

def batchLimitMsg : List Char :=
  "Batch limit exceeded. Please upload a maximum of 50 files.".toList

def invalidSettingsMsg : List Char := "Invalid settings provided.".toList

/-- The synchronous part of `createProcessImagesJob` from
`src/app/actions.ts`: consult the rate limiter first; then check
files-present / batch-limit; then the Zod schema; on success register the
job (status `processing`, progress 0, total = batch size) and return the id.
`settings?` is `none` when the `settings` form field is missing; `jobId`
stands for the fresh `nanoid()`.  The asynchronous orchestration launched
without `await` is modelled separately by `runJob`. -/
def createProcessImagesJob (st : LimiterState) (now : Nat) (ip : List Char)
    (jobId : Nat) (files : List InputFile) (settings? : Option RawSettings) :
    SubmitOut :=
  let c := checkRateLimit st now ip
  if c.1 = false then
    ⟨.submitError rateLimitMsg, none, c.2⟩
  else if files.length = 0 ∨ settings? = none then
    ⟨.submitError missingMsg, none, c.2⟩
  else if BATCH_LIMIT < files.length then
    ⟨.submitError batchLimitMsg, none, c.2⟩
  else
    match settings? with
    | none => ⟨.submitError missingMsg, none, c.2⟩
    | some s =>
      if validSettings s then
        ⟨.jobCreated jobId,
         some ⟨.processing, 0, files.length, none, none, none⟩, c.2⟩
      else
        ⟨.submitError invalidSettingsMsg, none, c.2⟩

def demoSettings : RawSettings := ⟨"webp".toList, 80, none, none⟩

def demoFiles1 : List InputFile := [⟨"a.jpg".toList, [1, 2, 3]⟩]

def demoFiles51 : List InputFile := List.replicate 51 ⟨"a.jpg".toList, [0]⟩

/-- C2 (counterexample): a valid, admitted submission creates the job record
with status `processing`, not `starting` as the claim states — the code
writes `{ status: 'processing', progress: 0, total: n }` at creation. -/
theorem createProcessImagesJob_initial_not_starting :
    ((createProcessImagesJob emptyLimiter 0 ['i'] 1 demoFiles1
        (some demoSettings)).createdJob.map Job.status) = some JobStatus.processing ∧
    JobStatus.processing ≠ JobStatus.starting := by
  constructor
  · rfl
  · decide

/-- C2 (amended): `createProcessImagesJob` consults the rate limiter and
validates the batch (non-empty, within `BATCH_LIMIT`) and the settings
against the Zod enum/range schema; on any admission or validation failure it
returns an error synchronously and writes no job record; on success it
registers the job in the `processing` state with progress 0 and
total = batch size and returns the fresh job id. -/
theorem createProcessImagesJob_spec (st : LimiterState) (now : Nat)
    (ip : List Char) (jobId : Nat) (files : List InputFile)
    (settings? : Option RawSettings) :
    ((checkRateLimit st now ip).1 = false →
      (createProcessImagesJob st now ip jobId files settings?).result =
        .submitError rateLimitMsg ∧
      (createProcessImagesJob st now ip jobId files settings?).createdJob = none) ∧
    ((checkRateLimit st now ip).1 = true → files = [] →
      (createProcessImagesJob st now ip jobId files settings?).result =
        .submitError missingMsg ∧
      (createProcessImagesJob st now ip jobId files settings?).createdJob = none) ∧
    ((checkRateLimit st now ip).1 = true → settings? = none → files ≠ [] →
      (createProcessImagesJob st now ip jobId files settings?).result =
        .submitError missingMsg ∧
      (createProcessImagesJob st now ip jobId files settings?).createdJob = none) ∧
    ((checkRateLimit st now ip).1 = true → files ≠ [] → settings? ≠ none →
      BATCH_LIMIT < files.length →
      (createProcessImagesJob st now ip jobId files settings?).result =
        .submitError batchLimitMsg ∧
      (createProcessImagesJob st now ip jobId files settings?).createdJob = none) ∧
    (∀ s : RawSettings, (checkRateLimit st now ip).1 = true →
      settings? = some s → files ≠ [] → files.length ≤ BATCH_LIMIT →
      validSettings s = false →
      (createProcessImagesJob st now ip jobId files settings?).result =
        .submitError invalidSettingsMsg ∧
      (createProcessImagesJob st now ip jobId files settings?).createdJob = none) ∧
    (∀ s : RawSettings, (checkRateLimit st now ip).1 = true →
      settings? = some s → files ≠ [] → files.length ≤ BATCH_LIMIT →
      validSettings s = true →
      (createProcessImagesJob st now ip jobId files settings?).result =
        .jobCreated jobId ∧
      (createProcessImagesJob st now ip jobId files settings?).createdJob =
        some ⟨.processing, 0, files.length, none, none, none⟩) := by
  have hlen : files ≠ [] → ¬ files.length = 0 := by
    intro h; exact Nat.pos_iff_ne_zero.mp (List.length_pos.mpr h)
  refine ⟨?_, ?_, ?_, ?_, ?_, ?_⟩
  · intro h; simp [createProcessImagesJob, h]
  · intro h hfe; subst hfe; simp [createProcessImagesJob, h]
  · intro h hs hfe
    simp [createProcessImagesJob, h, hs, hlen hfe]
  · intro h hfe hs hbig
    have hs' : settings? ≠ none := hs
    simp [createProcessImagesJob, h, hlen hfe, hbig, hs']
  · intro s h hs hfe hle hbad
    simp [createProcessImagesJob, h, hs, hlen hfe, Nat.not_lt_of_le hle, hbad]
  · intro s h hs hfe hle hok
    simp [createProcessImagesJob, h, hs, hlen hfe, Nat.not_lt_of_le hle, hok]

/-- Witness for C2 at concrete inputs: a 51-file batch is rejected with the
batch-limit error and no job record, while a valid 1-file batch is admitted
and registered with status `processing`, progress 0, total 1. -/
theorem createProcessImagesJob_spec_witness :
    ((createProcessImagesJob emptyLimiter 0 ['i'] 1 demoFiles51
        (some demoSettings)).result = .submitError batchLimitMsg ∧
      (createProcessImagesJob emptyLimiter 0 ['i'] 1 demoFiles51
        (some demoSettings)).createdJob = none) ∧
    ((createProcessImagesJob emptyLimiter 0 ['i'] 1 demoFiles1
        (some demoSettings)).result = .jobCreated 1 ∧
      (createProcessImagesJob emptyLimiter 0 ['i'] 1 demoFiles1
        (some demoSettings)).createdJob =
        some ⟨.processing, 0, demoFiles1.length, none, none, none⟩) :=
  ⟨(createProcessImagesJob_spec emptyLimiter 0 ['i'] 1 demoFiles51
      (some demoSettings)).2.2.2.1 (by decide) (by decide) (by decide) (by decide),
   (createProcessImagesJob_spec emptyLimiter 0 ['i'] 1 demoFiles1
      (some demoSettings)).2.2.2.2.2 demoSettings (by decide) rfl (by decide)
      (by decide) (by decide)⟩

/-- C9: `createProcessImagesJob` consults the rate limiter before any batch
or settings validation — the limiter map after any call is exactly the map
after `checkRateLimit`, and an in-window identity below the maximum has its
count incremented even by a call that is then rejected with the
missing-files validation error for an empty batch. -/
theorem rateLimit_consumed_before_validation (st : LimiterState) (now : Nat)
    (ip : List Char) (jobId : Nat) (files : List InputFile)
    (settings? : Option RawSettings) :
    ((createProcessImagesJob st now ip jobId files settings?).limiter =
      (checkRateLimit st now ip).2) ∧
    (∀ c t : Nat, st ip = some ⟨c, t⟩ → now - t ≤ RATE_LIMIT_WINDOW_MS →
      c < RATE_LIMIT_MAX_REQUESTS →
      (createProcessImagesJob st now ip jobId [] settings?).result =
        .submitError missingMsg ∧
      (createProcessImagesJob st now ip jobId [] settings?).createdJob = none ∧
      (createProcessImagesJob st now ip jobId [] settings?).limiter ip =
        some ⟨c + 1, t⟩) := by
  constructor
  · simp only [createProcessImagesJob]
    repeat' (first | rfl | split)
  · intro c t hrec hwin hcnt
    have hchk : checkRateLimit st now ip =
        (true, setRecord st ip ⟨c + 1, t⟩) := by
      simp [checkRateLimit, hrec, Nat.not_lt_of_le hwin, hcnt]
    refine ⟨?_, ?_, ?_⟩ <;>
      simp [createProcessImagesJob, hchk, setRecord_same]

/-- Witness for C9 at concrete inputs: identity `['i']` with an in-window
count of 5; an empty-batch call is rejected with the validation error yet
the identity's count advances to 6. -/
theorem rateLimit_consumed_before_validation_witness :
    (createProcessImagesJob (setRecord emptyLimiter ['i'] ⟨5, 100⟩) 200 ['i'] 1 []
      (some demoSettings)).result = .submitError missingMsg ∧
    (createProcessImagesJob (setRecord emptyLimiter ['i'] ⟨5, 100⟩) 200 ['i'] 1 []
      (some demoSettings)).createdJob = none ∧
    (createProcessImagesJob (setRecord emptyLimiter ['i'] ⟨5, 100⟩) 200 ['i'] 1 []
      (some demoSettings)).limiter ['i'] = some ⟨6, 100⟩ :=
  (rateLimit_consumed_before_validation (setRecord emptyLimiter ['i'] ⟨5, 100⟩)
    200 ['i'] 1 [] (some demoSettings)).2 5 100 (by decide) (by decide) (by decide)

/-! ## File-name handling (`file.name.substring(0, file.name.lastIndexOf('.'))`) -/

def jsLastDotIdxAux : List Char → Nat → Option Nat → Option Nat
  | [], _, acc => acc
  | c :: rest, i, acc => jsLastDotIdxAux rest (i + 1) (if c = '.' then some i else acc)

/-- JS `name.lastIndexOf('.')`, with `none` for the JS result `-1`. -/
def jsLastDotIdx (s : List Char) : Option Nat := jsLastDotIdxAux s 0 none

/-- JS `name.substring(0, name.lastIndexOf('.'))`: the prefix before the last
dot; for a dotless name, `substring(0, -1)` clamps to the empty string. -/
def jsStripExt (s : List Char) : List Char :=
  match jsLastDotIdx s with
  | none => []
  | some i => s.take i

/-- The `newName` computed per item:
`` `${originalName}.${settings.format}` ``. -/
def entryName (f : InputFile) (fmt : List Char) : List Char :=
  jsStripExt f.name ++ '.' :: fmt

/-- Modelled from the spec: the "original base name" of a file name — the
name with its final dot-extension removed (used only to compare the code's
entry naming against the spec's wording in C6). -/
def specBaseName (s : List Char) : List Char :=
  match jsLastDotIdx s with
  | none => s
  | some i => s.take i

theorem jsStripExt_eq_specBaseName (s : List Char)
    (h : (jsLastDotIdx s).isSome = true) : jsStripExt s = specBaseName s := by
  unfold jsStripExt specBaseName
  cases hds : jsLastDotIdx s with
  | none => rw [hds] at h; simp at h
  | some i => rfl

/-! ## Orchestrator (`processAndZip` and the async block of
`createProcessImagesJob` in `src/app/actions.ts`) -/

/-- The external `sharp` pipeline (`optimizeImage`'s transcode step) as an
oracle at the Transcoder boundary: input file to output bytes or error. -/
def Transcoder : Type := InputFile → Except (List Char) (List Nat)

def optMsg (name : List Char) : List Char :=
  "Optimizing ".toList ++ name ++ "...".toList

def compressMsg : List Char := "Compressing into zip...".toList

def jobFailMsg (e : List Char) : List Char :=
  "Failed to process images: ".toList ++ e

/-- Result of the `processAndZip` loop: the sequence of `jobStore.set`
writes it performs, the number of transcoder invocations, and either the
archive entries handed to JSZip or the first transcode error. -/
structure PazOut where
  writes : List Job
  attempts : Nat
  outcome : Except (List Char) (List (List Char × List Nat))

/-- The `for` loop of `processAndZip` followed by the pre-zip write.  For
item `i` it first writes `{processing, progress: i, total: n, info}` and then
transcodes; a transcode failure aborts the loop and propagates the error.
After the last item it writes `{processing, n, n, "Compressing into zip..."}`
and yields the accumulated named entries. -/
def pazLoop (tc : Transcoder) (fmt : List Char) (n : Nat) :
    List InputFile → Nat → PazOut
  | [], _ =>
    ⟨[⟨.processing, n, n, some compressMsg, none, none⟩], 0, .ok []⟩
  | f :: rest, i =>
    let w : Job := ⟨.processing, i, n, some (optMsg f.name), none, none⟩
    match tc f with
    | .error e => ⟨[w], 1, .error e⟩
    | .ok buf =>
      let r := pazLoop tc fmt n rest (i + 1)
      ⟨w :: r.writes, r.attempts + 1,
       r.outcome.map (fun es => (entryName f fmt, buf) :: es)⟩

/-- `processAndZip(jobId, files, settings)` from `src/app/actions.ts`. -/
def processAndZip (files : List InputFile) (tc : Transcoder)
    (fmt : List Char) : PazOut :=
  pazLoop tc fmt files.length files 0

/-- The background block of `createProcessImagesJob` (the `(async () => …)()`
launched without `await`): first write `{processing, 0, n}`, then run
`processAndZip`; on success write the completed state carrying the zip
result, on any thrown error write the failed state whose progress re-reads
the job's last stored progress (`jobStore.get(jobId)?.progress || 0`).
Returns the full ordered sequence of `jobStore` writes together with the
final state. -/
def runJob (files : List InputFile) (tc : Transcoder) (fmt : List Char) :
    List Job × Job :=
  let n := files.length
  let w0 : Job := ⟨.processing, 0, n, none, none, none⟩
  let p := processAndZip files tc fmt
  match p.outcome with
  | .ok entries =>
    let done : Job := ⟨.completed, n, n, none, some (.zip entries), none⟩
    (w0 :: p.writes ++ [done], done)
  | .error e =>
    let fj : Job := ⟨.failed, ((w0 :: p.writes).getLastD w0).progress, n,
                     none, none, some (jobFailMsg e)⟩
    (w0 :: p.writes ++ [fj], fj)

def resultEntryCount : Option JobResult → Nat
  | some (.zip es) => es.length
  | some (.urls ls) => ls.length
  | none => 0

/-! ### Trace lemmas for the orchestrator -/

theorem pazLoop_writes_spec (tc : Transcoder) (fmt : List Char) (n : Nat) :
    ∀ (fs : List InputFile) (i : Nat), i + fs.length ≤ n →
      (∀ w ∈ (pazLoop tc fmt n fs i).writes,
        w.total = n ∧ w.status = .processing ∧ i ≤ w.progress ∧ w.progress ≤ n) ∧
      List.Chain' (fun a b => a.progress ≤ b.progress) (pazLoop tc fmt n fs i).writes ∧
      (pazLoop tc fmt n fs i).writes ≠ [] := by
  intro fs
  induction fs with
  | nil =>
    intro i hi
    refine ⟨?_, by simp [pazLoop], by simp [pazLoop]⟩
    intro w hw
    simp [pazLoop] at hw
    subst hw
    simp at hi
    exact ⟨rfl, rfl, hi, Nat.le_refl n⟩
  | cons f rest ih =>
    intro i hi
    have hi' : (i + 1) + rest.length ≤ n := by
      simp [List.length_cons] at hi; omega
    have hin : i ≤ n := by simp [List.length_cons] at hi; omega
    obtain ⟨ihmem, ihchain, ihne⟩ := ih (i + 1) hi'
    cases htc : tc f with
    | error e =>
      refine ⟨?_, by simp [pazLoop, htc], by simp [pazLoop, htc]⟩
      intro w hw
      simp [pazLoop, htc] at hw
      subst hw
      exact ⟨rfl, rfl, Nat.le_refl i, hin⟩
    | ok buf =>
      refine ⟨?_, ?_, by simp [pazLoop, htc]⟩
      · intro w hw
        simp only [pazLoop, htc, List.mem_cons] at hw
        rcases hw with hw | hw
        · subst hw
          exact ⟨rfl, rfl, Nat.le_refl i, hin⟩
        · obtain ⟨h1, h2, h3, h4⟩ := ihmem w hw
          exact ⟨h1, h2, Nat.le_of_succ_le h3, h4⟩
      · simp only [pazLoop, htc]
        rw [List.chain'_cons']
        refine ⟨?_, ihchain⟩
        intro y hy
        have hmem : y ∈ (pazLoop tc fmt n rest (i + 1)).writes :=
          List.mem_of_mem_head? hy
        have h1 := (ihmem y hmem).2.2.1
        have hgoal : i ≤ y.progress := by omega
        exact hgoal

theorem mem_of_getLast?_job : ∀ {l : List Job} {a : Job},
    l.getLast? = some a → a ∈ l := by
  intro l
  induction l with
  | nil => intro a h; simp at h
  | cons x l ih =>
    intro a h
    cases l with
    | nil => simp at h; subst h; exact List.mem_singleton_self x
    | cons y l' =>
      rw [List.getLast?_cons_cons] at h
      exact List.mem_cons_of_mem x (ih h)

theorem getLastD_cons_mem (a : Job) (l : List Job) (d : Job) :
    (a :: l).getLastD d ∈ a :: l := by
  induction l generalizing a d with
  | nil => simp [List.getLastD]
  | cons b l ih =>
    rw [List.getLastD_cons]
    exact List.mem_cons_of_mem a (ih b a)

theorem getLastD_of_getLast? : ∀ (l : List Job) (d x : Job),
    l.getLast? = some x → l.getLastD d = x := by
  intro l
  induction l with
  | nil => intro d x h; simp at h
  | cons y t ih =>
    intro d x h
    cases t with
    | nil => simp at h; subst h; rfl
    | cons z t' =>
      rw [List.getLast?_cons_cons] at h
      rw [List.getLastD_cons]
      exact ih y x h

theorem getLastD_cons_eq_of_getLast? (w0 d x : Job) (l : List Job)
    (h : l.getLast? = some x) : (w0 :: l).getLastD d = x := by
  rw [List.getLastD_cons]
  exact getLastD_of_getLast? l w0 x h

/-- C4: along the full sequence of job-store writes of one job — from the
creation write to the terminal write — `total` always equals the batch size,
`progress` is monotonically non-decreasing, `progress` never exceeds
`total`, and every write with status `completed` has `progress = total`. -/
theorem jobWrites_invariants (files : List InputFile) (tc : Transcoder)
    (fmt : List Char) :
    (∀ w ∈ (runJob files tc fmt).1, w.total = files.length) ∧
    List.Chain' (fun a b => a.progress ≤ b.progress) (runJob files tc fmt).1 ∧
    (∀ w ∈ (runJob files tc fmt).1, w.progress ≤ w.total) ∧
    (∀ w ∈ (runJob files tc fmt).1,
      w.status = .completed → w.progress = w.total) := by
  obtain ⟨pmem, pchain, pne⟩ :=
    pazLoop_writes_spec tc fmt files.length files 0 (by omega)
  have pmem' : ∀ w ∈ (processAndZip files tc fmt).writes,
      w.total = files.length ∧ w.status = .processing ∧
      0 ≤ w.progress ∧ w.progress ≤ files.length := pmem
  have hlast_mem :
      ((⟨.processing, 0, files.length, none, none, none⟩ :
          Job) :: (processAndZip files tc fmt).writes).getLastD
        ⟨.processing, 0, files.length, none, none, none⟩ ∈
      (⟨.processing, 0, files.length, none, none, none⟩ :
          Job) :: (processAndZip files tc fmt).writes :=
    getLastD_cons_mem _ _ _
  have hlast_le :
      (((⟨.processing, 0, files.length, none, none, none⟩ :
          Job) :: (processAndZip files tc fmt).writes).getLastD
        ⟨.processing, 0, files.length, none, none, none⟩).progress ≤
        files.length := by
    rcases List.mem_cons.mp hlast_mem with h | h
    · rw [h]; exact Nat.zero_le _
    · exact (pmem' _ h).2.2.2
  have hchain0 : List.Chain' (fun a b => a.progress ≤ b.progress)
      ((⟨.processing, 0, files.length, none, none, none⟩ :
          Job) :: (processAndZip files tc fmt).writes) := by
    rw [List.chain'_cons']
    exact ⟨fun y _ => Nat.zero_le _, pchain⟩
  unfold runJob
  cases hout : (processAndZip files tc fmt).outcome with
  | ok entries =>
    simp only [hout]
    refine ⟨?_, ?_, ?_, ?_⟩
    · intro w hw
      rcases List.mem_append.mp hw with h | h
      · rcases List.mem_cons.mp h with h1 | h1
        · subst h1; rfl
        · exact (pmem' w h1).1
      · rw [List.mem_singleton] at h; subst h; rfl
    · rw [List.chain'_append]
      refine ⟨hchain0, List.chain'_singleton _, ?_⟩
      intro x hx y hy
      simp at hy
      subst hy
      rw [Option.mem_def] at hx
      rcases List.mem_cons.mp (mem_of_getLast?_job hx) with h1 | h1
      · rw [h1]; exact Nat.zero_le _
      · exact (pmem' x h1).2.2.2
    · intro w hw
      rcases List.mem_append.mp hw with h | h
      · rcases List.mem_cons.mp h with h1 | h1
        · subst h1; exact Nat.zero_le _
        · have h3 := (pmem' w h1).1
          have h4 := (pmem' w h1).2.2.2
          omega
      · rw [List.mem_singleton] at h; subst h; exact Nat.le_refl _
    · intro w hw hcomp
      rcases List.mem_append.mp hw with h | h
      · rcases List.mem_cons.mp h with h1 | h1
        · subst h1; simp at hcomp
        · rw [(pmem' w h1).2.1] at hcomp
          simp at hcomp
      · rw [List.mem_singleton] at h; subst h; rfl
  | error e =>
    simp only [hout]
    refine ⟨?_, ?_, ?_, ?_⟩
    · intro w hw
      rcases List.mem_append.mp hw with h | h
      · rcases List.mem_cons.mp h with h1 | h1
        · subst h1; rfl
        · exact (pmem' w h1).1
      · rw [List.mem_singleton] at h; subst h; rfl
    · rw [List.chain'_append]
      refine ⟨hchain0, List.chain'_singleton _, ?_⟩
      intro x hx y hy
      simp at hy
      subst hy
      rw [Option.mem_def] at hx
      simp [hx]
    · intro w hw
      rcases List.mem_append.mp hw with h | h
      · rcases List.mem_cons.mp h with h1 | h1
        · subst h1; exact Nat.zero_le _
        · have h3 := (pmem' w h1).1
          have h4 := (pmem' w h1).2.2.2
          omega
      · rw [List.mem_singleton] at h; subst h
        exact hlast_le
    · intro w hw hcomp
      rcases List.mem_append.mp hw with h | h
      · rcases List.mem_cons.mp h with h1 | h1
        · subst h1; simp at hcomp
        · rw [(pmem' w h1).2.1] at hcomp
          simp at hcomp
      · rw [List.mem_singleton] at h; subst h
        simp at hcomp

def demoTc : Transcoder := fun f => .ok f.content

def demoFiles2 : List InputFile :=
  [⟨"a.jpg".toList, [1]⟩, ⟨"b.png".toList, [2]⟩]

/-- Witness for C4 at a concrete 2-item batch: the write trace is
monotone in `progress`, and the final (completed) write has
`progress = total`. -/
theorem jobWrites_invariants_witness :
    List.Chain' (fun a b => a.progress ≤ b.progress)
      (runJob demoFiles2 demoTc "webp".toList).1 ∧
    (runJob demoFiles2 demoTc "webp".toList).2.progress =
      (runJob demoFiles2 demoTc "webp".toList).2.total :=
  ⟨(jobWrites_invariants demoFiles2 demoTc "webp".toList).2.1,
   (jobWrites_invariants demoFiles2 demoTc "webp".toList).2.2.2
     (runJob demoFiles2 demoTc "webp".toList).2 (by decide) (by decide)⟩

theorem pazLoop_ok_entries (tc : Transcoder) (fmt : List Char) (n : Nat) :
    ∀ (fs : List InputFile) (i : Nat) (es : List (List Char × List Nat)),
      (pazLoop tc fmt n fs i).outcome = .ok es →
      es.length = fs.length ∧
      es.map Prod.fst = fs.map (fun f => entryName f fmt) := by
  intro fs
  induction fs with
  | nil =>
    intro i es h
    simp [pazLoop] at h
    subst h
    exact ⟨rfl, rfl⟩
  | cons f rest ih =>
    intro i es h
    cases htc : tc f with
    | error e => simp [pazLoop, htc] at h
    | ok buf =>
      simp only [pazLoop, htc] at h
      cases hr : (pazLoop tc fmt n rest (i + 1)).outcome with
      | error e' => rw [hr] at h; simp [Except.map] at h
      | ok es' =>
        rw [hr] at h
        simp [Except.map] at h
        subst h
        obtain ⟨h1, h2⟩ := ih (i + 1) es' hr
        refine ⟨by simp [h1], by simp [h2]⟩

/-- C1 (counterexample): a completed 2-item batch whose transcoded outputs
are each a single byte — below any per-item size ceiling — still yields one
zip archive covering the batch, not a list of 2 individually hosted links:
no size ceiling exists in the code and the links result shape is never
produced. -/
theorem small_batch_result_is_archive_not_links :
    (runJob demoFiles2 demoTc "webp".toList).2.status = .completed ∧
    (runJob demoFiles2 demoTc "webp".toList).2.result =
      some (.zip [("a.webp".toList, [1]), ("b.webp".toList, [2])]) ∧
    isUrlsResult (runJob demoFiles2 demoTc "webp".toList).2 = false := by
  refine ⟨rfl, ?_, rfl⟩
  rfl

/-- C1 (amended): every submitted batch that completes has as its result a
single archive payload covering the whole batch (one entry per input item),
regardless of the transcoded item sizes; the individually-hosted-links
result shape is never produced. -/
theorem completed_result_is_archive (files : List InputFile)
    (tc : Transcoder) (fmt : List Char)
    (h : (runJob files tc fmt).2.status = .completed) :
    isZipResult (runJob files tc fmt).2 = true ∧
    isUrlsResult (runJob files tc fmt).2 = false ∧
    resultEntryCount (runJob files tc fmt).2.result = files.length := by
  cases hout : (processAndZip files tc fmt).outcome with
  | error e =>
    exfalso
    simp only [runJob, hout] at h
    simp at h
  | ok entries =>
    have hlen := (pazLoop_ok_entries tc fmt files.length files 0 entries hout).1
    simp only [runJob, hout]
    exact ⟨rfl, rfl, by simpa [resultEntryCount] using hlen⟩

/-- Witness for C1's amended theorem at a concrete completed batch. -/
theorem completed_result_is_archive_witness :
    isZipResult (runJob demoFiles2 demoTc "webp".toList).2 = true ∧
    isUrlsResult (runJob demoFiles2 demoTc "webp".toList).2 = false ∧
    resultEntryCount (runJob demoFiles2 demoTc "webp".toList).2.result =
      demoFiles2.length :=
  completed_result_is_archive demoFiles2 demoTc "webp".toList (by decide)

/-- C6: when a job completes with an archive result, the archive contains
exactly one named entry per input item — `n` entries for `n` items, the
`i`-th named with the `i`-th input's base name (its name with the final
dot-extension removed) followed by a dot and the target format. -/
theorem archive_entries_roundtrip (files : List InputFile) (tc : Transcoder)
    (fmt : List Char) (es : List (List Char × List Nat))
    (hst : (runJob files tc fmt).2.status = .completed)
    (hz : (runJob files tc fmt).2.result = some (.zip es))
    (hdot : ∀ f ∈ files, (jsLastDotIdx f.name).isSome = true) :
    es.length = files.length ∧
    es.map Prod.fst = files.map (fun f => specBaseName f.name ++ '.' :: fmt) := by
  cases hout : (processAndZip files tc fmt).outcome with
  | error e =>
    exfalso
    simp only [runJob, hout] at hst
    simp at hst
  | ok entries =>
    simp only [runJob, hout] at hz
    have hes : entries = es := by simpa using hz
    subst hes
    obtain ⟨h1, h2⟩ := pazLoop_ok_entries tc fmt files.length files 0 entries hout
    refine ⟨h1, ?_⟩
    rw [h2]
    apply List.map_congr_left
    intro f hf
    unfold entryName
    rw [jsStripExt_eq_specBaseName f.name (hdot f hf)]

/-- Witness for C6 at a concrete completed 2-item batch. -/
theorem archive_entries_roundtrip_witness :
    ([("a.webp".toList, [1]), ("b.webp".toList, [2])] :
        List (List Char × List Nat)).length = demoFiles2.length ∧
    ([("a.webp".toList, [1]), ("b.webp".toList, [2])] :
        List (List Char × List Nat)).map Prod.fst =
      demoFiles2.map (fun f => specBaseName f.name ++ '.' :: "webp".toList) :=
  archive_entries_roundtrip demoFiles2 demoTc "webp".toList
    [("a.webp".toList, [1]), ("b.webp".toList, [2])]
    (by decide) (by decide) (by decide)

/-! ### Failure propagation (C5) -/

theorem pazLoop_fail (tc : Transcoder) (fmt : List Char) (n : Nat) :
    ∀ (pre : List InputFile) (bad : InputFile) (post : List InputFile)
      (i : Nat) (e : List Char),
      (∀ f ∈ pre, ∃ b, tc f = .ok b) → tc bad = .error e →
      (pazLoop tc fmt n (pre ++ bad :: post) i).outcome = .error e ∧
      (pazLoop tc fmt n (pre ++ bad :: post) i).attempts = pre.length + 1 ∧
      (pazLoop tc fmt n (pre ++ bad :: post) i).writes.getLast? =
        some ⟨.processing, i + pre.length, n, some (optMsg bad.name), none, none⟩ := by
  intro pre
  induction pre with
  | nil =>
    intro bad post i e _ hbad
    simp [pazLoop, hbad]
  | cons f pre' ih =>
    intro bad post i e hpre hbad
    obtain ⟨b, hb⟩ := hpre f (List.mem_cons_self f pre')
    have hpre' : ∀ g ∈ pre', ∃ b, tc g = .ok b :=
      fun g hg => hpre g (List.mem_cons_of_mem f hg)
    obtain ⟨ho, ha, hl⟩ := ih bad post (i + 1) e hpre' hbad
    have hcons : (f :: pre') ++ bad :: post = f :: (pre' ++ bad :: post) := rfl
    rw [hcons]
    refine ⟨?_, ?_, ?_⟩
    · simp only [pazLoop, hb]
      rw [ho]
      rfl
    · simp only [pazLoop, hb]
      simp [ha, List.length_cons]
    · simp only [pazLoop, hb]
      cases hw : (pazLoop tc fmt n (pre' ++ bad :: post) (i + 1)).writes with
      | nil => rw [hw] at hl; simp at hl
      | cons y ys =>
        rw [hw] at hl
        rw [List.getLast?_cons_cons, hl]
        simp only [List.length_cons]
        have harith : i + 1 + pre'.length = i + (pre'.length + 1) := by omega
        rw [harith]

/-- C5: when the transcode of one item fails, the job immediately reaches
`failed` with the error message and no result; `progress` retains the count
of items already processed successfully (the failing item's index), and the
remaining items are never transcoded — the transcoder is invoked exactly
`index + 1` times. -/
theorem transcode_failure_fails_job (pre : List InputFile) (bad : InputFile)
    (post : List InputFile) (tc : Transcoder) (fmt : List Char) (e : List Char)
    (hpre : ∀ f ∈ pre, ∃ b, tc f = .ok b) (hbad : tc bad = .error e) :
    (runJob (pre ++ bad :: post) tc fmt).2.status = .failed ∧
    (runJob (pre ++ bad :: post) tc fmt).2.progress = pre.length ∧
    (runJob (pre ++ bad :: post) tc fmt).2.result = none ∧
    (runJob (pre ++ bad :: post) tc fmt).2.error = some (jobFailMsg e) ∧
    jobFailMsg e ≠ [] ∧
    (processAndZip (pre ++ bad :: post) tc fmt).attempts = pre.length + 1 := by
  obtain ⟨ho, ha, hl⟩ := pazLoop_fail tc fmt (pre ++ bad :: post).length
    pre bad post 0 e hpre hbad
  have ho' : (processAndZip (pre ++ bad :: post) tc fmt).outcome = .error e := ho
  have ha' : (processAndZip (pre ++ bad :: post) tc fmt).attempts =
      pre.length + 1 := ha
  have hl' : (processAndZip (pre ++ bad :: post) tc fmt).writes.getLast? =
      some ⟨.processing, 0 + pre.length, (pre ++ bad :: post).length,
            some (optMsg bad.name), none, none⟩ := hl
  refine ⟨?_, ?_, ?_, ?_, ?_, ha'⟩
  · simp [runJob, ho']
  · simp only [runJob, ho']
    rw [getLastD_cons_eq_of_getLast? _ _ _ _ hl']
    simp
  · simp [runJob, ho']
  · simp [runJob, ho']
  · simp [jobFailMsg]

instance : DecidableEq (Except (List Char) (List Nat)) := fun a b =>
  match a, b with
  | .ok x, .ok y =>
    if h : x = y then .isTrue (by rw [h]) else .isFalse (by simp [h])
  | .error x, .error y =>
    if h : x = y then .isTrue (by rw [h]) else .isFalse (by simp [h])
  | .ok _, .error _ => .isFalse (by simp)
  | .error _, .ok _ => .isFalse (by simp)

def demoTcFail : Transcoder := fun f =>
  if f.name = "b.png".toList then .error "corrupt".toList else .ok f.content

def demoFiles5 : List InputFile :=
  [⟨"a.jpg".toList, [1]⟩, ⟨"b.png".toList, [2]⟩, ⟨"c.png".toList, [3]⟩,
   ⟨"d.png".toList, [4]⟩, ⟨"e.png".toList, [5]⟩]

/-- Witness for C5: in a 5-item batch whose second item fails to transcode,
the final state is `failed` with `progress = 1`, a non-empty error, no
result, and only 2 transcoder invocations. -/
theorem transcode_failure_fails_job_witness :
    (runJob demoFiles5 demoTcFail "webp".toList).2.status = .failed ∧
    (runJob demoFiles5 demoTcFail "webp".toList).2.progress = 1 ∧
    (runJob demoFiles5 demoTcFail "webp".toList).2.result = none ∧
    (runJob demoFiles5 demoTcFail "webp".toList).2.error =
      some (jobFailMsg "corrupt".toList) ∧
    jobFailMsg "corrupt".toList ≠ [] ∧
    (processAndZip demoFiles5 demoTcFail "webp".toList).attempts = 2 :=
  transcode_failure_fails_job [⟨"a.jpg".toList, [1]⟩] ⟨"b.png".toList, [2]⟩
    [⟨"c.png".toList, [3]⟩, ⟨"d.png".toList, [4]⟩, ⟨"e.png".toList, [5]⟩]
    demoTcFail "webp".toList "corrupt".toList
    (by
      intro f hf
      rw [List.mem_singleton] at hf
      subst hf
      exact ⟨[1], by decide⟩)
    (by decide)

/-! ## Target-dimension computation (`optimizeImage` in `src/app/actions.ts`) -/

/-- The `width`/`height` fields read from `sharp`'s `image.metadata()`
(`undefined` when absent). -/
structure Metadata where
  width : Option Nat
  height : Option Nat
deriving DecidableEq, Repr

/-- JS `metadata.width || 1`: substitutes 1 both for `undefined` and for a
falsy `0`. -/
def jsOrOne : Option Nat → Nat
  | none => 1
  | some 0 => 1
  | some (k + 1) => k + 1

/-- JS truthiness of a numeric setting (`null` and `0` are falsy). -/
def jsTruthy : Option Int → Bool
  | none => false
  | some v => decide (v ≠ 0)

/-- JS `Math.round`: half-up rounding, `⌊x + 1/2⌋`. -/
def jsRound (q : ℚ) : ℤ := ⌊q + 1 / 2⌋

/-- The target-dimension computation of `optimizeImage` (exact rational
arithmetic in place of JS floats): defaulted original dimensions, aspect
ratio `originalWidth / originalHeight`, then the `if`-chain over the
width/height settings. -/
def targetDims (md : Metadata) (sw sh : Option Int) : ℤ × ℤ :=
  let ow : Nat := jsOrOne md.width
  let oh : Nat := jsOrOne md.height
  let ar : ℚ := (ow : ℚ) / (oh : ℚ)
  if jsTruthy sw && !jsTruthy sh then
    (sw.getD 0, jsRound ((sw.getD 0 : ℚ) / ar))
  else if !jsTruthy sw && jsTruthy sh then
    (jsRound ((sh.getD 0 : ℚ) * ar), sh.getD 0)
  else if jsTruthy sw && jsTruthy sh then
    (sw.getD 0, sh.getD 0)
  else
    ((ow : ℤ), (oh : ℤ))

/-- `optimizeImage` resizes only when the computed target differs from the
(defaulted) original dimensions. -/
def resizeOccurs (md : Metadata) (sw sh : Option Int) : Bool :=
  decide (targetDims md sw sh ≠ ((jsOrOne md.width : ℤ), (jsOrOne md.height : ℤ)))

/-- C8: with both width and height null no resize occurs; with exactly one
set the other target dimension is derived from the original aspect ratio
with half-up rounding; with both set the two given values are used as-is
(aspect ratio not preserved). -/
theorem targetDims_spec (md : Metadata) (sw sh : Option Int) :
    (sw = none → sh = none →
      targetDims md sw sh = ((jsOrOne md.width : ℤ), (jsOrOne md.height : ℤ)) ∧
      resizeOccurs md sw sh = false) ∧
    (∀ w : Int, sw = some w → 1 ≤ w → sh = none →
      targetDims md sw sh =
        (w, jsRound ((w : ℚ) * (jsOrOne md.height : ℚ) / (jsOrOne md.width : ℚ)))) ∧
    (∀ h : Int, sw = none → sh = some h → 1 ≤ h →
      targetDims md sw sh =
        (jsRound ((h : ℚ) * (jsOrOne md.width : ℚ) / (jsOrOne md.height : ℚ)), h)) ∧
    (∀ w h : Int, sw = some w → sh = some h → 1 ≤ w → 1 ≤ h →
      targetDims md sw sh = (w, h)) := by
  refine ⟨?_, ?_, ?_, ?_⟩
  · intro hw hh
    subst hw; subst hh
    constructor
    · simp [targetDims, jsTruthy]
    · simp [resizeOccurs, targetDims, jsTruthy]
  · intro w hw hw1 hh
    subst hw; subst hh
    have hw0 : w ≠ 0 := by omega
    have harg : (w : ℚ) / ((jsOrOne md.width : ℚ) / (jsOrOne md.height : ℚ)) =
        (w : ℚ) * (jsOrOne md.height : ℚ) / (jsOrOne md.width : ℚ) :=
      div_div_eq_mul_div _ _ _
    simp [targetDims, jsTruthy, hw0, harg]
  · intro h hw hh hh1
    subst hw; subst hh
    have hh0 : h ≠ 0 := by omega
    have harg : (h : ℚ) * ((jsOrOne md.width : ℚ) / (jsOrOne md.height : ℚ)) =
        (h : ℚ) * (jsOrOne md.width : ℚ) / (jsOrOne md.height : ℚ) :=
      (mul_div_assoc _ _ _).symm
    simp [targetDims, jsTruthy, hh0, harg]
  · intro w h hw hh hw1 hh1
    subst hw; subst hh
    have hw0 : w ≠ 0 := by omega
    have hh0 : h ≠ 0 := by omega
    simp [targetDims, jsTruthy, hw0, hh0]

/-- Witness for C8 at concrete inputs: a 400×300 image with only
`width = 200` set gets height `round(200 / (400/300)) = 150`; with both
`width = 10` and `height = 999` set, both are used as-is. -/
theorem targetDims_spec_witness :
    targetDims ⟨some 400, some 300⟩ (some 200) none = (200, 150) ∧
    targetDims ⟨some 400, some 300⟩ (some 10) (some 999) = (10, 999) := by
  constructor
  · have h := (targetDims_spec ⟨some 400, some 300⟩ (some 200) none).2.1 200
      rfl (by decide) rfl
    rw [h]
    norm_num [jsOrOne, jsRound]
  · exact (targetDims_spec ⟨some 400, some 300⟩ (some 10) (some 999)).2.2.2 10 999
      rfl rfl (by decide) (by decide)

/-- C10: the defaulted original dimensions are always at least 1 — `none`
and `0` both become 1 and positive values pass through — so the aspect-ratio
division in `targetDims` never divides by zero. -/
theorem jsOrOne_positive :
    (∀ md : Metadata, 1 ≤ jsOrOne md.width ∧ 1 ≤ jsOrOne md.height ∧
      ((jsOrOne md.height : ℚ) ≠ 0) ∧
      (jsOrOne md.width : ℚ) / (jsOrOne md.height : ℚ) *
        (jsOrOne md.height : ℚ) = (jsOrOne md.width : ℚ)) ∧
    jsOrOne none = 1 ∧ jsOrOne (some 0) = 1 ∧
    (∀ k : Nat, 1 ≤ k → jsOrOne (some k) = k) := by
  have hpos : ∀ o : Option Nat, 1 ≤ jsOrOne o := by
    intro o
    cases o with
    | none => exact Nat.le_refl 1
    | some k => cases k with
      | zero => exact Nat.le_refl 1
      | succ k' => exact Nat.succ_le_succ (Nat.zero_le k')
  refine ⟨?_, rfl, rfl, ?_⟩
  · intro md
    have hh := hpos md.height
    have hq : ((jsOrOne md.height : ℚ)) ≠ 0 := by
      have : (0 : ℚ) < (jsOrOne md.height : ℚ) := by
        exact_mod_cast Nat.lt_of_lt_of_le Nat.zero_lt_one hh
      exact ne_of_gt this
    exact ⟨hpos md.width, hh, hq, div_mul_cancel₀ _ hq⟩
  · intro k hk
    cases k with
    | zero => exact absurd hk (by decide)
    | succ k' => rfl

/-- Witness for C10 at concrete metadata: an image whose metadata reports
width 0 and no height gets defaulted dimensions 1×1. -/
theorem jsOrOne_positive_witness :
    1 ≤ jsOrOne (Metadata.mk (some 0) none).width ∧
    jsOrOne (some 0) = 1 ∧ jsOrOne (some 7) = 7 :=
  ⟨(jsOrOne_positive.1 ⟨some 0, none⟩).1,
   jsOrOne_positive.2.2.1,
   jsOrOne_positive.2.2.2 7 (by decide)⟩

/-! ## Job store polling and eviction (`getJobStatus` in `src/app/actions.ts`) -/

def EVICTION_DELAY_MS : Nat := 60000

def isTerminal : JobStatus → Bool
  | .completed => true
  | .failed => true
  | _ => false

/-- The `jobStore` map together with the cleanup deletions scheduled by
`setTimeout(() => jobStore.delete(jobId), 60000)` that have not yet fired. -/
structure StoreState where
  store : List Char → Option Job
  timers : List (Nat × List Char)

/-- Fire every scheduled cleanup whose time has arrived: each due timer
deletes its job id from the store; due timers leave the pending set. -/
def fireTimers (now : Nat) (s : StoreState) : StoreState :=
  ⟨fun k =>
    if s.timers.any (fun tm => decide (tm.1 ≤ now) && decide (tm.2 = k))
    then none else s.store k,
   s.timers.filter (fun tm => decide (now < tm.1))⟩

/-- `getJobStatus(jobId)` from `src/app/actions.ts`, with the JS event loop
made explicit: timers due at `now` fire first; an absent id yields `null`;
a terminal (`completed`/`failed`) job is returned and its deletion is
scheduled `EVICTION_DELAY_MS` in the future. -/
def getJobStatus (now : Nat) (s : StoreState) (id : List Char) :
    Option Job × StoreState :=
  let s1 := fireTimers now s
  match s1.store id with
  | none => (none, s1)
  | some job =>
    if isTerminal job.status = true then
      (some job, ⟨s1.store, (now + EVICTION_DELAY_MS, id) :: s1.timers⟩)
    else (some job, s1)

def demoDoneJob : Job :=
  ⟨.completed, 1, 1, none, some (.zip [("a.webp".toList, [1])]), none⟩

/-- A store holding one job, `"j1"`, already terminal (completed) since time
0, never yet polled: no cleanup is pending. -/
def demoStore : StoreState :=
  ⟨fun k => if k = "j1".toList then some demoDoneJob else none, []⟩

/-- C7 (counterexample): `"j1"` is terminal from time 0 and never polled;
a poll at time 60001 — after the 60000 ms eviction delay has elapsed since
the terminal state — still returns the stale terminal job, not "not found":
the code schedules eviction only when a poll observes the terminal job. -/
theorem evicted_poll_counterexample :
    isTerminal demoDoneJob.status = true ∧
    60000 < 60001 ∧
    (getJobStatus 60001 demoStore "j1".toList).1 = some demoDoneJob := by
  refine ⟨rfl, by decide, ?_⟩
  rfl

/-- C7 (amended): `getJobStatus` on an unknown (or already evicted) job id
returns an absent result, not an exception; and once a poll has observed a
terminal job, the job is deleted after the fixed eviction delay, so a poll
made once the delay has elapsed since the observing poll returns
not-found rather than the stale terminal data. -/
theorem getJobStatus_spec :
    (∀ (s : StoreState) (now : Nat) (id : List Char),
      s.store id = none → (getJobStatus now s id).1 = none) ∧
    (∀ (s : StoreState) (now1 now2 : Nat) (id : List Char) (job : Job),
      (getJobStatus now1 s id).1 = some job →
      isTerminal job.status = true →
      now1 + EVICTION_DELAY_MS ≤ now2 →
      (getJobStatus now2 (getJobStatus now1 s id).2 id).1 = none) := by
  constructor
  · intro s now id h
    simp [getJobStatus, fireTimers, h]
  · intro s now1 now2 id job hpoll ht hle
    simp only [getJobStatus] at hpoll ⊢
    cases hs : (fireTimers now1 s).store id with
    | none => rw [hs] at hpoll; simp at hpoll
    | some j =>
      rw [hs] at hpoll
      by_cases hterm : isTerminal j.status = true
      · simp only [hterm, if_true] at hpoll ⊢
        simp [fireTimers, hle]
      · simp only [hterm, if_false] at hpoll
        simp at hpoll
        subst hpoll
        exact absurd ht hterm

/-- Witness for C7's amended theorem: an unknown id polls to `none`; after a
poll at time 5 observes the terminal `"j1"`, a poll at time 60005 (the delay
having elapsed) returns `none`. -/
theorem getJobStatus_spec_witness :
    (getJobStatus 0 demoStore "zz".toList).1 = none ∧
    (getJobStatus 60005 (getJobStatus 5 demoStore "j1".toList).2 "j1".toList).1 =
      none :=
  ⟨getJobStatus_spec.1 demoStore 0 "zz".toList (by decide),
   getJobStatus_spec.2 demoStore 5 60005 "j1".toList demoDoneJob
     (by rfl) (by rfl) (by decide)⟩

end ImageOptix
